import Mathlib

/-!
Verification of the ZIO control tool (`tools/zio-control/ZioControlHandlerUI.py`).

The Python source is shallowly embedded: Qt edit widgets become explicit text
state (`Nat → String` slot maps or `List String`), Python `int()` / `str()` /
`isdigit()` / `split()` / `replace()` become executable Lean functions on
`List Char`, and fallible operations return `Option`.
-/

namespace Zio

/-! ### Decimal text: models Python `str(n)` and `int(s)` -/

/-- Decimal digit characters of `n` (most significant first), driven by fuel;
`[]` for `n = 0`. Models the digit expansion used by Python `str` on `int`. -/
def natDigitsAux : Nat → Nat → List Char
  | 0, _ => []
  | fuel + 1, n => if n = 0 then [] else natDigitsAux fuel (n / 10) ++ [Nat.digitChar (n % 10)]

/-- Python `str(n)` for a non-negative integer. -/
def pyStrNat (n : Nat) : String :=
  if n = 0 then "0" else String.mk (natDigitsAux (n + 1) n)

/-- Python `str(n)` for an arbitrary integer. -/
def pyStr (n : Int) : String :=
  if n < 0 then "-" ++ pyStrNat n.natAbs else pyStrNat n.natAbs

/-- Numeric value of a digit string, most significant first. -/
def charsVal (l : List Char) : Nat :=
  l.foldl (fun a c => a * 10 + (c.toNat - 48)) 0

/-- Python `int(s)` on a sign-free token: succeeds iff `s` is a non-empty
run of decimal digits. -/
def pyNatOfChars (l : List Char) : Option Nat :=
  if l ≠ [] ∧ l.all Char.isDigit then some (charsVal l) else none

/-- Python `int(s)` (base 10): optional sign followed by at least one digit. -/
def pyInt (s : String) : Option Int :=
  match s.data with
  | [] => none
  | c :: rest =>
    if c = '-' then (pyNatOfChars rest).map (fun n => -(n : Int))
    else if c = '+' then (pyNatOfChars rest).map (fun n => (n : Int))
    else (pyNatOfChars (c :: rest)).map (fun n => (n : Int))

/-- Python `s.isdigit()`: non-empty and all characters decimal digits. -/
def pyIsdigit (s : String) : Bool :=
  !s.data.isEmpty && s.data.all Char.isDigit

/-! ### Text helpers: Python `split()`, `split('/')`, `replace(pat, "")`, `rstrip('\n')` -/

/-- Python whitespace (`str.split()` with no argument splits on runs of these). -/
def pyIsSpace (c : Char) : Bool :=
  c = ' ' || c = '\t' || c = '\n' || c = '\r' || c = '\x0b' || c = '\x0c'

/-- Worker for `pySplit`; `acc` holds the current token reversed. -/
def pySplitAux : List Char → List Char → List String
  | acc, [] => if acc.isEmpty then [] else [String.mk acc.reverse]
  | acc, c :: rest =>
    if pyIsSpace c then
      (if acc.isEmpty then [] else [String.mk acc.reverse]) ++ pySplitAux [] rest
    else pySplitAux (c :: acc) rest

/-- Python `s.split()`: split on runs of whitespace, no empty tokens. -/
def pySplit (s : String) : List String := pySplitAux [] s.data

/-- Python `s.split('/')`: split at every `'/'`, keeping empty pieces; always
returns at least one piece. -/
def splitSlash : List Char → List (List Char)
  | [] => [[]]
  | c :: rest =>
    match splitSlash rest with
    | [] => [[]]
    | t :: ts => if c = '/' then [] :: t :: ts else (c :: t) :: ts

/-- Python `l[-1]` on a (by construction non-empty) list of tokens. -/
def lastTok : List (List Char) → List Char
  | [] => []
  | [t] => t
  | _ :: t :: ts => lastTok (t :: ts)

/-- Worker for `pyReplaceEmpty`, fuelled by the input length. -/
def pyReplaceEmptyAux (pat : List Char) : Nat → List Char → List Char
  | 0, s => s
  | fuel + 1, s =>
    match s with
    | [] => []
    | c :: rest =>
      if !pat.isEmpty && pat.isPrefixOf (c :: rest) then
        pyReplaceEmptyAux pat fuel ((c :: rest).drop pat.length)
      else c :: pyReplaceEmptyAux pat fuel rest

/-- Python `s.replace(pat, "")`: remove every (left-to-right, non-overlapping)
occurrence of `pat` from `s`. -/
def pyReplaceEmpty (s pat : String) : String :=
  String.mk (pyReplaceEmptyAux pat.data s.data.length s.data)

/-- Python `s.rstrip('\n')`: drop all trailing newline characters. -/
def pyRstripNl (s : String) : String :=
  String.mk ((s.data.reverse.dropWhile (fun c => c = '\n')).reverse)

/-! ### `ZioAttrMap`: the attribute-descriptor parser -/

/-- `stat.S_IWUSR | stat.S_IWGRP | stat.S_IWOTH` = `0o222`. -/
def S_IWUGO : Nat := 146

/-- `stat.S_IRUSR | stat.S_IRGRP | stat.S_IROTH` = `0o444`. -/
def S_IRUGO : Nat := 292

/-- Python `tmp & m` for a mask `m < 2 ^ 10`: only the low ten two's-complement
bits of `tmp` contribute, so reduce `tmp` modulo `2 ^ 10` first. -/
def pyAndLow (tmp : Int) (m : Nat) : Nat := (tmp % 1024).toNat &&& m

/-- The fields `ZioAttrMap.__init__` stores. -/
structure ZioAttrMap where
  fullpath : String
  name : String
  path : String
  is_extended : Bool
  index : Int
  is_writable : Bool
  is_readable : Bool
deriving DecidableEq

/-- `ZioAttrMap.__init__(desc_line)`. Python raises `IndexError` on a line of
fewer than four fields and `ValueError` on a non-integer index or mode field;
both failures are modelled as `none`. -/
def ZioAttrMap.parse (desc_line : String) : Option ZioAttrMap :=
  let field := pySplit desc_line
  if field.length < 4 then none
  else
    let fullpath := field.getD 0 ""
    let name := String.mk (lastTok (splitSlash fullpath.data))
    let path := pyReplaceEmpty fullpath name
    match pyInt (field.getD 2 ""), pyInt (field.getD 3 "") with
    | some idx, some tmp =>
      some { fullpath := fullpath, name := name, path := path,
             is_extended := field.getD 1 "" == "e", index := idx,
             is_writable := pyAndLow tmp S_IWUGO != 0,
             is_readable := pyAndLow tmp S_IRUGO != 0 }
    | _, _ => none

/-! ### `ZioExtendedAttribute`: the extended-attribute slot array -/

/-- Observable state of a `ZioExtendedAttribute`: `length` slots, each a
`QLineEdit` holding a text and a disabled flag.  Slot maps are total over
`Nat`; the operations only touch indices below `length`. -/
structure ZioExtendedAttribute where
  length : Nat
  texts : Nat → String
  disabled : Nat → Bool

namespace ZioExtendedAttribute

/-- `setValue(index, str_val)`: `edt.setText(str(str_val))`; the `str(...)`
conversion is applied by the callers below. -/
def setValue (st : ZioExtendedAttribute) (index : Nat) (str_val : String) :
    ZioExtendedAttribute :=
  { st with texts := fun j => if j = index then str_val else st.texts j }

/-- `setDisabled(index, status)`: `edt.setDisabled(status)`. -/
def setDisabled (st : ZioExtendedAttribute) (index : Nat) (status : Bool) :
    ZioExtendedAttribute :=
  { st with disabled := fun j => if j = index then status else st.disabled j }

/-- `getValue(index)`: `int(edt.text())`, and 0 when that raises. -/
def getValue (st : ZioExtendedAttribute) (index : Nat) : Int :=
  (pyInt (st.texts index)).getD 0

/-- Body of the `setValues` loop for one index `i`. -/
def setValuesStep (mask : Nat) (value : List Int) (st : ZioExtendedAttribute) (i : Nat) :
    ZioExtendedAttribute :=
  let st := (st.setDisabled i true).setValue i ""
  if mask.testBit i = true ∧ i < value.length then
    (st.setDisabled i false).setValue i (pyStr (value.getD i 0))
  else st

/-- `setValues(mask, value)`. -/
def setValues (st : ZioExtendedAttribute) (mask : Nat) (value : List Int) :
    ZioExtendedAttribute :=
  (List.range st.length).foldl (setValuesStep mask value) st

/-- `getValues(mask)`: one entry per slot, masked-out slots contribute 0. -/
def getValues (st : ZioExtendedAttribute) (mask : Nat) : List Int :=
  (List.range st.length).map (fun i => if mask.testBit i then st.getValue i else 0)

/-- `setDisabledMask(mask)`. -/
def setDisabledMask (st : ZioExtendedAttribute) (mask : Nat) : ZioExtendedAttribute :=
  (List.range st.length).foldl
    (fun s i => if mask.testBit i then s.setDisabled i false else s.setDisabled i true) st

/-- Concrete four-slot widget state used to evaluate the theorems below. -/
def egState : ZioExtendedAttribute :=
  { length := 4, texts := fun _ => "41", disabled := fun _ => false }

end ZioExtendedAttribute

/-! ### `update_nsample` (C7) -/

/-- `ZioControlHandlerUI.update_nsample`: sum the post- and pre-sample texts,
counting a non-digit operand as 0, and write `str(nsample)` into
`edt_nsample`; returns the text written. -/
def update_nsample (post pre : String) : String :=
  let nsample : Int := 0
  let nsample := if pyIsdigit post then nsample + (pyInt post).getD 0 else nsample
  let nsample := if pyIsdigit pre then nsample + (pyInt pre).getD 0 else nsample
  pyStr nsample

/-! ### `__update_standard_attributes` (C8) -/

/-- Python `"{0:#x}".format(n)` hex digits, driven by fuel. -/
def hexDigitsAux : Nat → Nat → List Char
  | 0, _ => []
  | fuel + 1, n => if n = 0 then [] else hexDigitsAux fuel (n / 16) ++ [Nat.digitChar (n % 16)]

/-- Python `"{0:#x}".format(n)` for a non-negative integer. -/
def pyHexNat (n : Nat) : String :=
  "0x" ++ (if n = 0 then "0" else String.mk (hexDigitsAux (n + 1) n))

/-- The row of standard-attribute `QLineEdit` widgets (`dev_std_attr` has 6,
`trg_std_attr` has 4). -/
structure StdAttrWidgets where
  count : Nat
  texts : Nat → String
  disabled : Nat → Bool

/-- One iteration of the `__update_standard_attributes` loop. -/
def updStdStep (std_mask : Nat) (std_val : Nat → Nat) (w : StdAttrWidgets) (i : Nat) :
    StdAttrWidgets :=
  if std_mask.testBit i then
    { w with disabled := fun j => if j = i then false else w.disabled j,
             texts := fun j => if j = i then pyStrNat (std_val i) else w.texts j }
  else
    { w with disabled := fun j => if j = i then true else w.disabled j,
             texts := fun j => if j = i then "" else w.texts j }

/-- `ZioControlHandlerUI.__update_standard_attributes(attrs_gui, attr_set)`:
per-slot decimal display driven by the mask, then the bit-15 special case,
which writes hex `std_val[15]` (or clears) on `attrs_gui[-1]`, the *last*
widget. -/
def update_standard_attributes (w : StdAttrWidgets) (std_mask : Nat)
    (std_val : Nat → Nat) : StdAttrWidgets :=
  let w1 := (List.range w.count).foldl (updStdStep std_mask std_val) w
  let last := w.count - 1
  if std_mask.testBit 15 then
    { w1 with texts := fun j => if j = last then pyHexNat (std_val 15) else w1.texts j,
              disabled := fun j => if j = last then false else w1.disabled j }
  else
    { w1 with texts := fun j => if j = last then "" else w1.texts j,
              disabled := fun j => if j = last then true else w1.disabled j }

/-- A concrete six-widget device standard-attribute row. -/
def egStdWidgets : StdAttrWidgets :=
  { count := 6, texts := fun _ => "x", disabled := fun _ => false }

/-! ### `__fill_combo_available_trigger` (C9) -/

/-- One line of `__fill_combo_available_trigger`: strip trailing newlines,
then append `'\x00' * (12 - len(trg_name))` (empty when the name is already
12 characters or longer — Python repeats a string zero times for a
non-positive count). -/
def fillComboEntry (line : String) : String :=
  let trg_name := pyRstripNl line
  trg_name ++ String.mk (List.replicate (12 - trg_name.length) '\x00')

/-! ### the `update_ctrl` standard-value write-back loop (C10) -/

/-- The `update_ctrl` loop
`for attr in std_attrs: if std_mask & (1 << i): std_val[i] = int(attr.text()); i += 1`,
one widget text per entry, index threaded; a non-integer text on an enabled
slot raises `ValueError` (modelled as `none`). -/
def updStdValsAux (std_mask : Nat) : List String → Nat → (Nat → Int) → Option (Nat → Int)
  | [], _, std_val => some std_val
  | t :: rest, i, std_val =>
    if std_mask.testBit i then
      match pyInt t with
      | some n => updStdValsAux std_mask rest (i + 1) (fun j => if j = i then n else std_val j)
      | none => none
    else updStdValsAux std_mask rest (i + 1) std_val

/-- The standard-value section of `ZioControlHandlerUI.update_ctrl` for one
attribute set: `attrs` are the texts of the standard edit widgets
(`dev_std_attr` has 6, `trg_std_attr` has 4), `std_val` the 16-slot value
array being updated in place. -/
def update_ctrl_std (attrs : List String) (std_mask : Nat) (std_val : Nat → Int) :
    Option (Nat → Int) :=
  updStdValsAux std_mask attrs 0 std_val

/-- Number of device/channel standard edit widgets wired in `__init__`. -/
def dev_std_attr_count : Nat := 6

/-- Number of trigger standard edit widgets wired in `__init__`. -/
def trg_std_attr_count : Nat := 4

/-! ### The control-block codec (C1)

`ZioControlHandlerUI` calls `self.ctrl.pack_to_bin()` and
`self.ctrl.unpack_to_ctrl(data)`; the `ZioCtrl` module holding them is not
part of the sources here, so the codec is modelled from the spec. -/

/-- A 32-bit little-endian encoding of one scalar field. -/
def w32 (n : Nat) : List Nat :=
  [n % 256, n / 256 % 256, n / 65536 % 256, n / 16777216 % 256]

/-- Read one 32-bit little-endian scalar. -/
def rd32 : List Nat → Option (Nat × List Nat)
  | b0 :: b1 :: b2 :: b3 :: rest => some (b0 + 256 * b1 + 65536 * b2 + 16777216 * b3, rest)
  | _ => none

/-- Encode a value array as consecutive 32-bit words. -/
def encVals (l : List Nat) : List Nat := (l.map w32).flatten

/-- Read `k` consecutive 32-bit words. -/
def decVals : Nat → List Nat → Option (List Nat × List Nat)
  | 0, l => some ([], l)
  | k + 1, l => do
    let (v, r) ← rd32 l
    let (vs, r2) ← decVals k r
    pure (v :: vs, r2)

/-- Encode a fixed-length text field: the characters' code points, padded
with NUL bytes to `cap`. -/
def encStr (cap : Nat) (s : String) : List Nat :=
  s.data.map Char.toNat ++ List.replicate (cap - s.data.length) 0

/-- Strip the NUL padding from a decoded text field. -/
def dropTrailingZeros (l : List Nat) : List Nat :=
  (l.reverse.dropWhile (· == 0)).reverse

/-- Read a fixed-length text field of `cap` bytes. -/
def rdStr (cap : Nat) (l : List Nat) : Option (String × List Nat) :=
  if cap ≤ l.length then
    some (String.mk ((dropTrailingZeros (l.take cap)).map Char.ofNat), l.drop cap)
  else none

/-- Modelled from the spec: the three-field hardware timestamp sub-record of
the control block (§3 Timestamp). -/
structure ZioTimeStamp where
  seconds : Nat
  ticks : Nat
  bins : Nat
deriving DecidableEq

/-- Modelled from the spec: the addressing sub-record of the control block
(§3 Address); `devname` is a fixed-length 12-byte text field. -/
structure ZioAddress where
  host_type : Nat
  hostid : Nat
  dev_id : Nat
  cset_i : Nat
  chan_i : Nat
  devname : String
deriving DecidableEq

/-- Modelled from the spec: one attribute set of the control block — a
standard mask with 16 values and an extended mask with 32 values (§3
AttributeSet). -/
structure ZioAttributeSet where
  std_mask : Nat
  std_val : List Nat
  ext_mask : Nat
  ext_val : List Nat
deriving DecidableEq

/-- Modelled from the spec: the full ZIO control block (§3 ControlBlock),
whose `pack_to_bin` / `unpack_to_ctrl` codec lives in the external `ZioCtrl`
module; `triggername` is a fixed-length 12-byte text field. -/
structure ZioCtrl where
  major_version : Nat
  minor_version : Nat
  seq_num : Nat
  ssize : Nat
  nbits : Nat
  nsamples : Nat
  alarms_zio : Nat
  alarms_dev : Nat
  flags : Nat
  addr : ZioAddress
  tstamp : ZioTimeStamp
  triggername : String
  attr_channel : ZioAttributeSet
  attr_trigger : ZioAttributeSet
deriving DecidableEq

/-- Encode one attribute set. -/
def encAttrSet (a : ZioAttributeSet) : List Nat :=
  w32 a.std_mask ++ (encVals a.std_val ++ (w32 a.ext_mask ++ encVals a.ext_val))

/-- Decode one attribute set (16 standard, 32 extended values). -/
def decAttrSet (l : List Nat) : Option (ZioAttributeSet × List Nat) := do
  let (sm, r1) ← rd32 l
  let (sv, r2) ← decVals 16 r1
  let (em, r3) ← rd32 r2
  let (ev, r4) ← decVals 32 r3
  pure ({ std_mask := sm, std_val := sv, ext_mask := em, ext_val := ev }, r4)

/-- Modelled from the spec: `ZioCtrl.pack_to_bin` — a fixed-size buffer with
a pinned field order, every scalar a 32-bit little-endian word and both text
fields NUL-padded to 12 bytes (§4.1 encode). -/
def pack_to_bin (c : ZioCtrl) : List Nat :=
  w32 c.major_version ++ (w32 c.minor_version ++ (w32 c.seq_num ++ (w32 c.ssize ++
    (w32 c.nbits ++ (w32 c.nsamples ++ (w32 c.alarms_zio ++ (w32 c.alarms_dev ++
    (w32 c.flags ++ (w32 c.addr.host_type ++ (w32 c.addr.hostid ++ (w32 c.addr.dev_id ++
    (w32 c.addr.cset_i ++ (w32 c.addr.chan_i ++ (encStr 12 c.addr.devname ++
    (w32 c.tstamp.seconds ++ (w32 c.tstamp.ticks ++ (w32 c.tstamp.bins ++
    (encStr 12 c.triggername ++
      (encAttrSet c.attr_channel ++ encAttrSet c.attr_trigger)))))))))))))))))))

/-- Decode the five leading scalar header fields, `major_version` through
`nbits`. -/
def decHdrA (l : List Nat) : Option ((Nat × Nat × Nat × Nat × Nat) × List Nat) := do
  let (major_version, r1) ← rd32 l
  let (minor_version, r2) ← rd32 r1
  let (seq_num, r3) ← rd32 r2
  let (ssize, r4) ← rd32 r3
  let (nbits, r5) ← rd32 r4
  pure ((major_version, minor_version, seq_num, ssize, nbits), r5)

/-- Decode the remaining scalar header fields, `nsamples` through `flags`. -/
def decHdrB (l : List Nat) : Option ((Nat × Nat × Nat × Nat) × List Nat) := do
  let (nsamples, r1) ← rd32 l
  let (alarms_zio, r2) ← rd32 r1
  let (alarms_dev, r3) ← rd32 r2
  let (flags, r4) ← rd32 r3
  pure ((nsamples, alarms_zio, alarms_dev, flags), r4)

/-- Decode the address sub-record. -/
def decAddress (l : List Nat) : Option (ZioAddress × List Nat) := do
  let (host_type, r1) ← rd32 l
  let (hostid, r2) ← rd32 r1
  let (dev_id, r3) ← rd32 r2
  let (cset_i, r4) ← rd32 r3
  let (chan_i, r5) ← rd32 r4
  let (devname, r6) ← rdStr 12 r5
  pure ({ host_type := host_type, hostid := hostid, dev_id := dev_id,
          cset_i := cset_i, chan_i := chan_i, devname := devname }, r6)

/-- Decode the timestamp sub-record. -/
def decTimeStamp (l : List Nat) : Option (ZioTimeStamp × List Nat) := do
  let (seconds, r1) ← rd32 l
  let (ticks, r2) ← rd32 r1
  let (bins, r3) ← rd32 r2
  pure ({ seconds := seconds, ticks := ticks, bins := bins }, r3)

/-- Modelled from the spec: `ZioCtrl.unpack_to_ctrl` — decode the pinned
layout, failing on a buffer shorter than the structure and tolerating a
longer one (§4.1 decode). -/
def unpack_to_ctrl (data : List Nat) : Option ZioCtrl := do
  let (ha, r1) ← decHdrA data
  let (hb, r2) ← decHdrB r1
  let (addr, r3) ← decAddress r2
  let (ts, r4) ← decTimeStamp r3
  let (triggername, r5) ← rdStr 12 r4
  let (attr_channel, r6) ← decAttrSet r5
  let (attr_trigger, _r7) ← decAttrSet r6
  pure { major_version := ha.1, minor_version := ha.2.1, seq_num := ha.2.2.1,
         ssize := ha.2.2.2.1, nbits := ha.2.2.2.2,
         nsamples := hb.1, alarms_zio := hb.2.1, alarms_dev := hb.2.2.1,
         flags := hb.2.2.2,
         addr := addr, tstamp := ts, triggername := triggername,
         attr_channel := attr_channel, attr_trigger := attr_trigger }

/-- A 32-bit scalar field value. -/
def u32 (n : Nat) : Prop := n < 4294967296

/-- A well-formed fixed-length text field: fits in `cap` bytes, and every
character is a non-NUL byte. -/
def WFStr (cap : Nat) (s : String) : Prop :=
  s.data.length ≤ cap ∧ ∀ c ∈ s.data, c.toNat ≠ 0 ∧ c.toNat < 256

/-- A well-formed attribute set: 16 standard and 32 extended 32-bit values. -/
def WFAttrSet (a : ZioAttributeSet) : Prop :=
  u32 a.std_mask ∧ a.std_val.length = 16 ∧ (∀ x ∈ a.std_val, u32 x) ∧
    u32 a.ext_mask ∧ a.ext_val.length = 32 ∧ (∀ x ∈ a.ext_val, u32 x)

/-- A well-formed (valid) control block. -/
def WFCtrl (c : ZioCtrl) : Prop :=
  u32 c.major_version ∧ u32 c.minor_version ∧ u32 c.seq_num ∧ u32 c.ssize ∧
    u32 c.nbits ∧ u32 c.nsamples ∧ u32 c.alarms_zio ∧ u32 c.alarms_dev ∧
    u32 c.flags ∧ u32 c.addr.host_type ∧ u32 c.addr.hostid ∧ u32 c.addr.dev_id ∧
    u32 c.addr.cset_i ∧ u32 c.addr.chan_i ∧ WFStr 12 c.addr.devname ∧
    u32 c.tstamp.seconds ∧ u32 c.tstamp.ticks ∧ u32 c.tstamp.bins ∧
    WFStr 12 c.triggername ∧ WFAttrSet c.attr_channel ∧ WFAttrSet c.attr_trigger

instance u32_decidable (n : Nat) : Decidable (u32 n) := by unfold u32; infer_instance

instance WFStr_decidable (cap : Nat) (s : String) : Decidable (WFStr cap s) := by
  unfold WFStr; infer_instance

instance WFAttrSet_decidable (a : ZioAttributeSet) : Decidable (WFAttrSet a) := by
  unfold WFAttrSet; infer_instance

instance WFCtrl_decidable (c : ZioCtrl) : Decidable (WFCtrl c) := by
  unfold WFCtrl; infer_instance

/-- A concrete well-formed control block. -/
def egCtrl : ZioCtrl :=
  { major_version := 1, minor_version := 0, seq_num := 7, ssize := 2, nbits := 16,
    nsamples := 128, alarms_zio := 26, alarms_dev := 0, flags := 26,
    addr := { host_type := 0, hostid := 0, dev_id := 5, cset_i := 1, chan_i := 2,
              devname := "zzero" },
    tstamp := { seconds := 3, ticks := 4, bins := 5 },
    triggername := "user",
    attr_channel := { std_mask := 65535, std_val := List.replicate 16 1,
                      ext_mask := 3, ext_val := List.replicate 32 2 },
    attr_trigger := { std_mask := 1, std_val := List.replicate 16 0,
                      ext_mask := 0, ext_val := List.replicate 32 0 } }

theorem digitChar_isDigit {d : Nat} (h : d < 10) : (Nat.digitChar d).isDigit = true := by
  interval_cases d <;> decide

theorem digitChar_val {d : Nat} (h : d < 10) : (Nat.digitChar d).toNat - 48 = d := by
  interval_cases d <;> decide

theorem charsVal_append_singleton (l : List Char) (c : Char) :
    charsVal (l ++ [c]) = charsVal l * 10 + (c.toNat - 48) := by
  simp [charsVal, List.foldl_append]

theorem natDigitsAux_all_digits :
    ∀ fuel n, (natDigitsAux fuel n).all Char.isDigit = true := by
  intro fuel
  induction fuel with
  | zero => intro n; simp [natDigitsAux]
  | succ f ih =>
    intro n
    by_cases h : n = 0
    · simp [natDigitsAux, h]
    · simp only [natDigitsAux, if_neg h, List.all_append, ih]
      simp [digitChar_isDigit (Nat.mod_lt n (by norm_num))]

theorem natDigitsAux_ne_nil {fuel n : Nat} (hn : n ≠ 0) (hf : n ≤ fuel) :
    natDigitsAux fuel n ≠ [] := by
  cases fuel with
  | zero => omega
  | succ f =>
    simp only [natDigitsAux, if_neg hn]
    intro h
    exact absurd h (by simp)

theorem charsVal_natDigitsAux :
    ∀ n, ∀ fuel, n ≤ fuel → charsVal (natDigitsAux fuel n) = n := by
  intro n
  induction n using Nat.strong_induction_on with
  | _ n ih =>
    intro fuel hle
    cases fuel with
    | zero =>
      have : n = 0 := by omega
      simp [this, natDigitsAux, charsVal]
    | succ f =>
      by_cases h : n = 0
      · simp [h, natDigitsAux, charsVal]
      · simp only [natDigitsAux, if_neg h]
        rw [charsVal_append_singleton]
        have hdiv : n / 10 < n := Nat.div_lt_self (Nat.pos_of_ne_zero h) (by norm_num)
        have hd : n / 10 ≤ f := by omega
        rw [ih (n / 10) hdiv f hd, digitChar_val (Nat.mod_lt n (by norm_num))]
        omega

theorem pyNatOfChars_pyStrNat (n : Nat) : pyNatOfChars (pyStrNat n).data = some n := by
  by_cases h : n = 0
  · simp [h, pyStrNat, pyNatOfChars, charsVal]
  · simp only [pyStrNat, if_neg h]
    have hne := natDigitsAux_ne_nil h (Nat.le_succ n)
    have hall := natDigitsAux_all_digits (n + 1) n
    simp only [pyNatOfChars, String.data]
    rw [if_pos ⟨hne, hall⟩, charsVal_natDigitsAux n (n + 1) (Nat.le_succ n)]

theorem pyStrNat_head_isDigit (n : Nat) :
    ∀ c ∈ (pyStrNat n).data, c.isDigit = true := by
  intro c hc
  by_cases h : n = 0
  · simp [h, pyStrNat] at hc
    simp [hc]
  · simp only [pyStrNat, if_neg h, String.data] at hc
    have hall := natDigitsAux_all_digits (n + 1) n
    rw [List.all_eq_true] at hall
    exact hall c hc

theorem pyStrNat_data_ne_nil (n : Nat) : (pyStrNat n).data ≠ [] := by
  by_cases h : n = 0
  · simp [h, pyStrNat]
  · simp only [pyStrNat, if_neg h, String.data]
    exact natDigitsAux_ne_nil h (Nat.le_succ n)

theorem pyInt_pyStrNat (n : Nat) : pyInt (pyStrNat n) = some (n : Int) := by
  rcases hd : (pyStrNat n).data with _ | ⟨c, rest⟩
  · exact absurd hd (pyStrNat_data_ne_nil n)
  · have hcdig : c.isDigit = true := by
      apply pyStrNat_head_isDigit n
      rw [hd]; exact List.mem_cons_self c rest
    have hcm : c ≠ '-' := by intro h; rw [h] at hcdig; exact absurd hcdig (by decide)
    have hcp : c ≠ '+' := by intro h; rw [h] at hcdig; exact absurd hcdig (by decide)
    have := pyNatOfChars_pyStrNat n
    rw [hd] at this
    simp [pyInt, hd, if_neg hcm, if_neg hcp, this]

theorem pyInt_pyStr (k : Int) : pyInt (pyStr k) = some k := by
  by_cases h : k < 0
  · simp only [pyStr, if_pos h]
    have hdata : ("-" ++ pyStrNat k.natAbs).data = '-' :: (pyStrNat k.natAbs).data := by
      rw [String.data_append]; rfl
    simp [pyInt, hdata, pyNatOfChars_pyStrNat, Int.ofNat_natAbs_of_nonpos (le_of_lt h)]
  · simp only [pyStr, if_neg h]
    rw [pyInt_pyStrNat, Int.natAbs_of_nonneg (le_of_not_lt h)]

example :
    ZioAttrMap.parse "gpio/trigger/foo e 3 0644" =
      some { fullpath := "gpio/trigger/foo", name := "foo", path := "gpio/trigger/",
             is_extended := true, index := 3, is_writable := true, is_readable := true } := by
  decide

namespace ZioExtendedAttribute

theorem length_setValuesStep (mask : Nat) (value : List Int) (st : ZioExtendedAttribute)
    (i : Nat) : (setValuesStep mask value st i).length = st.length := by
  unfold setValuesStep setValue setDisabled
  split <;> rfl

theorem length_foldl_setValuesStep (mask : Nat) (value : List Int) :
    ∀ (l : List Nat) (st : ZioExtendedAttribute),
      (l.foldl (setValuesStep mask value) st).length = st.length := by
  intro l
  induction l with
  | nil => intro st; rfl
  | cons a l ih => intro st; rw [List.foldl_cons, ih, length_setValuesStep]

theorem length_setValues (st : ZioExtendedAttribute) (mask : Nat) (value : List Int) :
    (setValues st mask value).length = st.length :=
  length_foldl_setValuesStep mask value _ st

theorem texts_setValuesStep (mask : Nat) (value : List Int) (st : ZioExtendedAttribute)
    (i j : Nat) :
    (setValuesStep mask value st i).texts j =
      if j = i then
        (if mask.testBit i = true ∧ i < value.length then pyStr (value.getD i 0) else "")
      else st.texts j := by
  unfold setValuesStep setValue setDisabled
  split <;> by_cases hj : j = i <;> simp [hj]

theorem texts_foldl_range (mask : Nat) (value : List Int) :
    ∀ (n : Nat) (st : ZioExtendedAttribute) (i : Nat),
      ((List.range n).foldl (setValuesStep mask value) st).texts i =
        if i < n then
          (if mask.testBit i = true ∧ i < value.length then pyStr (value.getD i 0) else "")
        else st.texts i := by
  intro n
  induction n with
  | zero => intro st i; simp
  | succ n ih =>
    intro st i
    rw [List.range_succ, List.foldl_append, List.foldl_cons, List.foldl_nil,
      texts_setValuesStep]
    by_cases hi : i = n
    · simp [hi]
    · rw [if_neg hi, ih]
      by_cases hlt : i < n
      · simp [hlt, Nat.lt_succ_of_lt hlt]
      · have h2 : ¬i < n + 1 := by omega
        simp [hlt, h2]

theorem texts_setValues (st : ZioExtendedAttribute) (mask : Nat) (value : List Int)
    (i : Nat) :
    (setValues st mask value).texts i =
      if i < st.length then
        (if mask.testBit i = true ∧ i < value.length then pyStr (value.getD i 0) else "")
      else st.texts i :=
  texts_foldl_range mask value st.length st i

theorem texts_setDisabledMask (st : ZioExtendedAttribute) (mask : Nat) :
    (setDisabledMask st mask).texts = st.texts := by
  unfold setDisabledMask
  generalize List.range st.length = l
  induction l generalizing st with
  | nil => rfl
  | cons a l ih =>
    rw [List.foldl_cons]
    rw [ih]
    split <;> rfl

theorem length_setDisabledMask (st : ZioExtendedAttribute) (mask : Nat) :
    (setDisabledMask st mask).length = st.length := by
  unfold setDisabledMask
  generalize List.range st.length = l
  induction l generalizing st with
  | nil => rfl
  | cons a l ih =>
    rw [List.foldl_cons, ih]
    split <;> rfl

theorem getValue_setValues (st : ZioExtendedAttribute) (mask : Nat) (value : List Int)
    (i : Nat) (hi : i < st.length) :
    getValue (setValues st mask value) i =
      if mask.testBit i = true ∧ i < value.length then value.getD i 0 else 0 := by
  unfold getValue
  rw [texts_setValues, if_pos hi]
  split
  · rw [pyInt_pyStr]; rfl
  · rfl

theorem getD_getValues (st : ZioExtendedAttribute) (mask : Nat) (i : Nat)
    (hi : i < st.length) :
    (getValues st mask).getD i 0 = if mask.testBit i then st.getValue i else 0 := by
  rw [getValues, List.getD_eq_getElem?_getD, List.getElem?_map, List.getElem?_range hi]
  rfl

end ZioExtendedAttribute

open ZioExtendedAttribute in

/-- C2: for every mask `m` and value sequence `v`, after `setValues(m, v)`,
`getValues(m)` returns exactly `capacity` entries, and entry `i` equals `v[i]`
when bit `i` of `m` is set and `i < |v|`, else 0. -/
theorem claim_C2_setValues_getValues (st : ZioExtendedAttribute) (m : Nat) (v : List Int) :
    (getValues (setValues st m v) m).length = st.length ∧
    ∀ i, i < st.length →
      (getValues (setValues st m v) m).getD i 0 =
        if m.testBit i = true ∧ i < v.length then v.getD i 0 else 0 := by
  constructor
  · simp [getValues, length_setValues]
  · intro i hi
    have hi' : i < (setValues st m v).length := by rw [length_setValues]; exact hi
    rw [getD_getValues _ _ _ hi', getValue_setValues st m v i hi]
    by_cases hb : m.testBit i = true
    · simp [hb]
    · simp [hb]

open ZioExtendedAttribute in

/-- Witness for C2 at a concrete state: with mask `0b101` and values `[7, -3]`,
entry 0 reads 7, entry 1 reads 0 (bit clear), entry 2 reads 0 (past `|v|`). -/
theorem claim_C2_setValues_getValues_witness :
    (0 : Nat) < egState.length ∧
    (getValues (setValues egState 5 [7, -3]) 5).getD 0 0 = 7 ∧
    (getValues (setValues egState 5 [7, -3]) 5).getD 1 0 = 0 ∧
    (getValues (setValues egState 5 [7, -3]) 5).getD 2 0 = 0 := by
  refine ⟨by decide, ?_, ?_, ?_⟩
  · have h := (claim_C2_setValues_getValues egState 5 [7, -3]).2 0 (by decide)
    rw [h, if_pos (by decide)]
    decide
  · have h := (claim_C2_setValues_getValues egState 5 [7, -3]).2 1 (by decide)
    rw [h, if_neg (by decide)]
  · have h := (claim_C2_setValues_getValues egState 5 [7, -3]).2 2 (by decide)
    rw [h, if_neg (by decide)]

open ZioExtendedAttribute in

/-- C3: after `setValues(m, v)` then `setDisabledMask(m2)`, `getValues(m2)`
returns 0 at every index whose bit is clear in `m2`. -/
theorem claim_C3_disable_then_get (st : ZioExtendedAttribute) (m : Nat) (v : List Int)
    (m2 : Nat) (i : Nat) (hi : i < st.length) (hbit : m2.testBit i = false) :
    (getValues (setDisabledMask (setValues st m v) m2) m2).getD i 0 = 0 := by
  have hlen : i < (setDisabledMask (setValues st m v) m2).length := by
    rw [length_setDisabledMask, length_setValues]; exact hi
  rw [getD_getValues _ _ _ hlen, hbit]
  rfl

open ZioExtendedAttribute in

/-- Witness for C3: mask bit 0 cleared by `m2 = 2`, entry 0 reads 0. -/
theorem claim_C3_disable_then_get_witness :
    (0 : Nat) < egState.length ∧ Nat.testBit 2 0 = false ∧
    (getValues (setDisabledMask (setValues egState 1 [5]) 2) 2).getD 0 0 = 0 :=
  ⟨by decide, by decide, claim_C3_disable_then_get egState 1 [5] 2 0 (by decide) (by decide)⟩

open ZioExtendedAttribute in

/-- C4 fails on the code: `setDisabledMask` does not clear stored values.
After `setValues(1, [5])` stores 5 in slot 0, `setDisabledMask(0)` clears mask
bit 0, yet `getValue(0)` still reads the stale 5, not 0. -/
theorem claim_C4_counterexample :
    getValue (setDisabledMask (setValues egState 1 [5]) 0) 0 = 5 ∧ (5 : Int) ≠ 0 := by
  constructor
  · decide
  · decide

open ZioExtendedAttribute in

/-- C4 amended: `setDisabledMask` leaves every stored value unchanged, so a
stale value does survive it; what clears values is `setValues`: a slot it
disables (mask bit clear) reads 0 through `getValue`, and this persists across
a later `setDisabledMask`. -/
theorem claim_C4_amended (st : ZioExtendedAttribute) (m : Nat) (v : List Int)
    (m2 : Nat) (i : Nat) (hi : i < st.length) (hbit : m.testBit i = false) :
    getValue (setDisabledMask (setValues st m v) m2) i = 0 ∧
    ∀ (st' : ZioExtendedAttribute) (j : Nat),
      getValue (setDisabledMask st' m2) j = getValue st' j := by
  constructor
  · rw [getValue, texts_setDisabledMask, texts_setValues, if_pos hi, if_neg (by simp [hbit])]
    rfl
  · intro st' j
    rw [getValue, texts_setDisabledMask]
    rfl

open ZioExtendedAttribute in

/-- Witness for the amended C4 at slot 0 with mask 0. -/
theorem claim_C4_amended_witness :
    getValue (setDisabledMask (setValues egState 0 [5]) 3) 0 = 0 :=
  (claim_C4_amended egState 0 [5] 3 0 (by decide) (by decide)).1

/-! ### Structure of `split('/')` and of small bit masks -/

theorem splitSlash_ne_nil : ∀ l : List Char, splitSlash l ≠ [] := by
  intro l
  cases l with
  | nil => simp [splitSlash]
  | cons c rest =>
    cases h : splitSlash rest with
    | nil => simp [splitSlash, h]
    | cons t ts =>
      simp only [splitSlash, h]
      split <;> simp

theorem lastTok_cons_of_ne_nil (x : List Char) {ts : List (List Char)} (h : ts ≠ []) :
    lastTok (x :: ts) = lastTok ts := by
  cases ts with
  | nil => exact absurd rfl h
  | cons t ts2 => rfl

theorem mem_slash_of_two_le : ∀ l : List Char, 2 ≤ (splitSlash l).length → '/' ∈ l := by
  intro l
  induction l with
  | nil => intro h; simp [splitSlash] at h
  | cons c rest ih =>
    intro h
    cases hs : splitSlash rest with
    | nil => exact absurd hs (splitSlash_ne_nil rest)
    | cons t ts =>
      simp only [splitSlash, hs] at h
      by_cases hc : c = '/'
      · rw [hc]; exact List.mem_cons_self '/' rest
      · rw [if_neg hc] at h
        simp only [List.length_cons] at h
        have : 2 ≤ (splitSlash rest).length := by rw [hs]; simp; omega
        exact List.mem_cons_of_mem c (ih this)

theorem not_slash_mem_lastTok : ∀ l : List Char, '/' ∉ lastTok (splitSlash l) := by
  intro l
  induction l with
  | nil => simp [splitSlash, lastTok]
  | cons c rest ih =>
    cases hs : splitSlash rest with
    | nil => exact absurd hs (splitSlash_ne_nil rest)
    | cons t ts =>
      simp only [splitSlash, hs]
      by_cases hc : c = '/'
      · rw [if_pos hc, lastTok_cons_of_ne_nil _ (by simp)]
        rw [hs] at ih; exact ih
      · rw [if_neg hc]
        cases ts with
        | nil =>
          rw [hs] at ih
          simp only [lastTok] at ih ⊢
          intro hmem
          rcases List.mem_cons.mp hmem with h | h
          · exact hc h.symm
          · exact ih h
        | cons t2 ts2 =>
          rw [lastTok_cons_of_ne_nil _ (by simp)]
          rw [hs, lastTok_cons_of_ne_nil _ (by simp)] at ih
          exact ih

theorem splitSlash_decomp : ∀ l : List Char,
    ∃ pre, l = pre ++ lastTok (splitSlash l) ∧ (pre = [] ∨ pre.getLast? = some '/') ∧
      ((splitSlash l).length = 1 → pre = []) := by
  intro l
  induction l with
  | nil => exact ⟨[], by simp [splitSlash, lastTok], Or.inl rfl, fun _ => rfl⟩
  | cons c rest ih =>
    obtain ⟨pre, h1, h2, h3⟩ := ih
    cases hs : splitSlash rest with
    | nil => exact absurd hs (splitSlash_ne_nil rest)
    | cons t ts =>
      rw [hs] at h1 h3
      by_cases hc : c = '/'
      · have hsp : splitSlash (c :: rest) = [] :: t :: ts := by
          simp only [splitSlash, hs, if_pos hc]
        have hlast : lastTok ([] :: t :: ts) = lastTok (t :: ts) :=
          lastTok_cons_of_ne_nil [] (by simp)
        refine ⟨c :: pre, ?_, ?_, ?_⟩
        · rw [hsp, hlast, List.cons_append, ← h1]
        · right
          cases pre with
          | nil => simp [hc]
          | cons p ps => rw [List.getLast?_cons_cons]; exact h2.resolve_left (by simp)
        · intro hlen
          rw [hsp] at hlen
          simp only [List.length_cons] at hlen
          omega
      · cases ts with
        | nil =>
          have hsp : splitSlash (c :: rest) = [c :: t] := by
            simp only [splitSlash, hs, if_neg hc]
          have hpre : pre = [] := h3 (by simp)
          rw [hpre, List.nil_append] at h1
          simp only [lastTok] at h1
          refine ⟨[], ?_, Or.inl rfl, fun _ => rfl⟩
          rw [hsp]
          simp only [lastTok, List.nil_append]
          rw [h1]
        | cons t2 ts2 =>
          have hsp : splitSlash (c :: rest) = (c :: t) :: t2 :: ts2 := by
            simp only [splitSlash, hs, if_neg hc]
          have hlast : lastTok ((c :: t) :: t2 :: ts2) = lastTok (t2 :: ts2) :=
            lastTok_cons_of_ne_nil _ (by simp)
          have hlast2 : lastTok (t :: t2 :: ts2) = lastTok (t2 :: ts2) :=
            lastTok_cons_of_ne_nil _ (by simp)
          rw [hlast2] at h1
          refine ⟨c :: pre, ?_, ?_, ?_⟩
          · rw [hsp, hlast, List.cons_append, ← h1]
          · right
            cases hp : pre with
            | nil =>
              exfalso
              rw [hp, List.nil_append] at h1
              have hmem : '/' ∈ rest := mem_slash_of_two_le rest (by rw [hs]; simp)
              rw [h1] at hmem
              have hns := not_slash_mem_lastTok rest
              rw [hs, hlast2] at hns
              exact hns hmem
            | cons p ps =>
              rw [List.getLast?_cons_cons]
              have h2' := h2.resolve_left (by simp [hp])
              rw [hp] at h2'
              exact h2'
          · intro hlen
            rw [hsp] at hlen
            simp only [List.length_cons] at hlen
            omega

theorem testBit146_eq_false {i : Nat} (h1 : i ≠ 1) (h4 : i ≠ 4) (h7 : i ≠ 7) :
    Nat.testBit 146 i = false := by
  by_cases hlt : i < 8
  · interval_cases i
    · decide
    · exact absurd rfl h1
    · decide
    · decide
    · exact absurd rfl h4
    · decide
    · decide
    · exact absurd rfl h7
  · exact Nat.testBit_eq_false_of_lt
      (lt_of_lt_of_le (show (146 : Nat) < 2 ^ 8 by norm_num)
        (Nat.pow_le_pow_right (by norm_num) (by omega)))

theorem testBit292_eq_false {i : Nat} (h2 : i ≠ 2) (h5 : i ≠ 5) (h8 : i ≠ 8) :
    Nat.testBit 292 i = false := by
  by_cases hlt : i < 9
  · interval_cases i
    · decide
    · decide
    · exact absurd rfl h2
    · decide
    · decide
    · exact absurd rfl h5
    · decide
    · decide
    · exact absurd rfl h8
  · exact Nat.testBit_eq_false_of_lt
      (lt_of_lt_of_le (show (292 : Nat) < 2 ^ 9 by norm_num)
        (Nat.pow_le_pow_right (by norm_num) (by omega)))

theorem and_mask146_ne_zero_iff (y : Nat) :
    y &&& 146 ≠ 0 ↔
      (y.testBit 1 = true ∨ y.testBit 4 = true ∨ y.testBit 7 = true) := by
  constructor
  · intro h
    by_contra hn
    push_neg at hn
    simp only [Bool.not_eq_true] at hn
    obtain ⟨h1, h4, h7⟩ := hn
    apply h
    apply Nat.eq_of_testBit_eq
    intro i
    rw [Nat.testBit_and, Nat.zero_testBit]
    by_cases hi1 : i = 1
    · subst hi1; simp [h1]
    by_cases hi4 : i = 4
    · subst hi4; simp [h4]
    by_cases hi7 : i = 7
    · subst hi7; simp [h7]
    rw [testBit146_eq_false hi1 hi4 hi7]
    simp
  · intro h h0
    have key : ∀ k, y.testBit k = true → Nat.testBit 146 k = true → False := by
      intro k hk h146
      have hb : (y &&& 146).testBit k = false := by rw [h0]; exact Nat.zero_testBit k
      rw [Nat.testBit_and, hk, h146] at hb
      exact absurd hb (by decide)
    rcases h with h | h | h
    · exact key 1 h (by decide)
    · exact key 4 h (by decide)
    · exact key 7 h (by decide)

theorem and_mask292_ne_zero_iff (y : Nat) :
    y &&& 292 ≠ 0 ↔
      (y.testBit 2 = true ∨ y.testBit 5 = true ∨ y.testBit 8 = true) := by
  constructor
  · intro h
    by_contra hn
    push_neg at hn
    simp only [Bool.not_eq_true] at hn
    obtain ⟨h2, h5, h8⟩ := hn
    apply h
    apply Nat.eq_of_testBit_eq
    intro i
    rw [Nat.testBit_and, Nat.zero_testBit]
    by_cases hi2 : i = 2
    · subst hi2; simp [h2]
    by_cases hi5 : i = 5
    · subst hi5; simp [h5]
    by_cases hi8 : i = 8
    · subst hi8; simp [h8]
    rw [testBit292_eq_false hi2 hi5 hi8]
    simp
  · intro h h0
    have key : ∀ k, y.testBit k = true → Nat.testBit 292 k = true → False := by
      intro k hk h292
      have hb : (y &&& 292).testBit k = false := by rw [h0]; exact Nat.zero_testBit k
      rw [Nat.testBit_and, hk, h292] at hb
      exact absurd hb (by decide)
    rcases h with h | h | h
    · exact key 2 h (by decide)
    · exact key 5 h (by decide)
    · exact key 8 h (by decide)

theorem pyAndLow_eq_of_nonneg (tmp : Int) (h : 0 ≤ tmp) (m : Nat) :
    pyAndLow tmp m = (tmp.toNat % 1024) &&& m := by
  unfold pyAndLow
  congr 1
  omega

theorem testBit_mod_1024_of_lt (x j : Nat) (hj : j < 10) :
    (x % 1024).testBit j = x.testBit j := by
  have e : (1024 : Nat) = 2 ^ 10 := by norm_num
  rw [e, Nat.testBit_mod_two_pow]
  simp [hj]

theorem pyAndLow146_iff (tmp : Int) (h : 0 ≤ tmp) :
    pyAndLow tmp S_IWUGO ≠ 0 ↔
      (tmp.toNat.testBit 1 = true ∨ tmp.toNat.testBit 4 = true ∨
        tmp.toNat.testBit 7 = true) := by
  rw [show S_IWUGO = 146 from rfl, pyAndLow_eq_of_nonneg tmp h, and_mask146_ne_zero_iff,
    testBit_mod_1024_of_lt _ 1 (by norm_num), testBit_mod_1024_of_lt _ 4 (by norm_num),
    testBit_mod_1024_of_lt _ 7 (by norm_num)]

theorem pyAndLow292_iff (tmp : Int) (h : 0 ≤ tmp) :
    pyAndLow tmp S_IRUGO ≠ 0 ↔
      (tmp.toNat.testBit 2 = true ∨ tmp.toNat.testBit 5 = true ∨
        tmp.toNat.testBit 8 = true) := by
  rw [show S_IRUGO = 292 from rfl, pyAndLow_eq_of_nonneg tmp h, and_mask292_ne_zero_iff,
    testBit_mod_1024_of_lt _ 2 (by norm_num), testBit_mod_1024_of_lt _ 5 (by norm_num),
    testBit_mod_1024_of_lt _ 8 (by norm_num)]

/-- C5 fails on the code for the `path` clause: `__init__` computes
`path = fullpath.replace(name, "")`, which removes *every* occurrence of the
name, not just the final segment.  On `"x/x e 3 0644"` the name is `"x"` and
the claim demands `path = "x/"`, but the code produces `"/"`. -/
theorem claim_C5_counterexample :
    ((ZioAttrMap.parse "x/x e 3 0644").map fun a => (a.fullpath, a.name, a.path)) =
      some ("x/x", "x", "/") ∧ ("/" : String) ≠ "x/" := by
  constructor
  · decide
  · decide

/-- C5 amended: on a well-formed line, parsing yields the name as the last
slash-delimited segment, `is_extended` iff the flag is `"e"`, the base-10
index, and readability/writability from the owner/group/other permission
bits — but `path` is the fullpath with *every occurrence of the name string*
removed (Python `replace`), which equals fullpath minus the name segment only
when the name occurs once; the spec's example line parses as stated. -/
theorem claim_C5_amended (line : String) (h4 : 4 ≤ (pySplit line).length)
    (idx mode : Int) (hidx : pyInt ((pySplit line).getD 2 "") = some idx)
    (hmode : pyInt ((pySplit line).getD 3 "") = some mode) (hm0 : 0 ≤ mode) :
    (∃ a, ZioAttrMap.parse line = some a ∧
      a.fullpath = (pySplit line).getD 0 "" ∧
      (∃ pre, a.fullpath.data = pre ++ a.name.data ∧ '/' ∉ a.name.data ∧
        (pre = [] ∨ pre.getLast? = some '/')) ∧
      a.path = pyReplaceEmpty a.fullpath a.name ∧
      a.is_extended = ((pySplit line).getD 1 "" == "e") ∧
      a.index = idx ∧
      (a.is_writable = true ↔
        (mode.toNat.testBit 1 = true ∨ mode.toNat.testBit 4 = true ∨
          mode.toNat.testBit 7 = true)) ∧
      (a.is_readable = true ↔
        (mode.toNat.testBit 2 = true ∨ mode.toNat.testBit 5 = true ∨
          mode.toNat.testBit 8 = true))) ∧
    ZioAttrMap.parse "gpio/trigger/foo e 3 0644" =
      some { fullpath := "gpio/trigger/foo", name := "foo", path := "gpio/trigger/",
             is_extended := true, index := 3, is_writable := true,
             is_readable := true } := by
  have hne : ¬(pySplit line).length < 4 := by omega
  have hparse : ZioAttrMap.parse line = some
      { fullpath := (pySplit line).getD 0 "",
        name := String.mk (lastTok (splitSlash ((pySplit line).getD 0 "").data)),
        path := pyReplaceEmpty ((pySplit line).getD 0 "")
          (String.mk (lastTok (splitSlash ((pySplit line).getD 0 "").data))),
        is_extended := (pySplit line).getD 1 "" == "e",
        index := idx,
        is_writable := pyAndLow mode S_IWUGO != 0,
        is_readable := pyAndLow mode S_IRUGO != 0 } := by
    simp only [ZioAttrMap.parse, hidx, hmode, if_neg hne]
  refine ⟨⟨_, hparse, rfl, ?_, rfl, rfl, rfl, ?_, ?_⟩, by decide⟩
  · obtain ⟨pre, hd1, hd2, _⟩ := splitSlash_decomp ((pySplit line).getD 0 "").data
    exact ⟨pre, hd1, not_slash_mem_lastTok _, hd2⟩
  · change (pyAndLow mode S_IWUGO != 0) = true ↔ _
    rw [bne_iff_ne]
    exact pyAndLow146_iff mode hm0
  · change (pyAndLow mode S_IRUGO != 0) = true ↔ _
    rw [bne_iff_ne]
    exact pyAndLow292_iff mode hm0

/-- Witness for the amended C5 at the spec's example line. -/
theorem claim_C5_amended_witness :
    ∃ a, ZioAttrMap.parse "gpio/trigger/foo e 3 0644" = some a ∧ a.index = 3 ∧
      a.is_writable = true ∧ a.is_readable = true := by
  obtain ⟨⟨a, hp, _, _, _, _, hidx, hw, hr⟩, _⟩ :=
    claim_C5_amended "gpio/trigger/foo e 3 0644" (by decide) 3 644 (by decide) (by decide)
      (by decide)
  exact ⟨a, hp, hidx, hw.mpr (Or.inr (Or.inr (by decide))),
    hr.mpr (Or.inl (by decide))⟩

/-- C6: descriptor parsing fails exactly when the line has fewer than four
whitespace-separated fields or the index or mode field is not a base-10
integer (the Python code raises `IndexError` / `ValueError` there; no
descriptor is produced). -/
theorem claim_C6_parse_failure (line : String) :
    ZioAttrMap.parse line = none ↔
      ((pySplit line).length < 4 ∨ pyInt ((pySplit line).getD 2 "") = none ∨
        pyInt ((pySplit line).getD 3 "") = none) := by
  by_cases h4 : (pySplit line).length < 4
  · simp [ZioAttrMap.parse, h4]
  · rcases h2 : pyInt ((pySplit line).getD 2 "") with _ | idx <;>
      rcases h3 : pyInt ((pySplit line).getD 3 "") with _ | mode <;>
        simp only [List.getD_eq_getElem?_getD] at h2 h3 <;>
        simp [ZioAttrMap.parse, List.getD_eq_getElem?_getD, h2, h3, h4]

theorem pyIsdigit_eq_true_iff (s : String) :
    pyIsdigit s = true ↔ (s.data ≠ [] ∧ s.data.all Char.isDigit = true) := by
  rw [pyIsdigit, Bool.and_eq_true, Bool.not_eq_true']
  constructor
  · rintro ⟨h1, h2⟩
    refine ⟨?_, h2⟩
    intro hh
    rw [hh] at h1
    exact absurd h1 (by decide)
  · rintro ⟨h1, h2⟩
    refine ⟨?_, h2⟩
    cases hd : s.data with
    | nil => exact absurd hd h1
    | cons c rest => rfl

theorem pyNatOfChars_of_isdigit (s : String) (h : pyIsdigit s = true) :
    pyNatOfChars s.data = some (charsVal s.data) :=
  if_pos ((pyIsdigit_eq_true_iff s).mp h)

theorem pyNatOfChars_of_not_isdigit (s : String) (h : pyIsdigit s = false) :
    pyNatOfChars s.data = none := by
  rw [pyNatOfChars, if_neg]
  rintro ⟨h1, h2⟩
  rw [(pyIsdigit_eq_true_iff s).mpr ⟨h1, h2⟩] at h
  exact absurd h (by decide)

theorem pyInt_of_isdigit (s : String) (h : pyIsdigit s = true) :
    pyInt s = some ((charsVal s.data : Nat) : Int) := by
  have hn := pyNatOfChars_of_isdigit s h
  obtain ⟨h1, h2⟩ := (pyIsdigit_eq_true_iff s).mp h
  rcases hd : s.data with _ | ⟨c, rest⟩
  · exact absurd hd h1
  · have hcdig : c.isDigit = true := by
      rw [hd, List.all_cons, Bool.and_eq_true] at h2
      exact h2.1
    have hcm : c ≠ '-' := by intro hcc; rw [hcc] at hcdig; exact absurd hcdig (by decide)
    have hcp : c ≠ '+' := by intro hcc; rw [hcc] at hcdig; exact absurd hcdig (by decide)
    rw [hd] at hn
    simp [pyInt, hd, if_neg hcm, if_neg hcp, hn]

/-- C7: `nsamples` is recomputed as the sum of the two sample-count operands,
a non-digit operand contributing 0 and never raising; in particular
pre="120", post="8" gives "128"; pre="abc", post="8" gives "8"; empty
operands give "0". -/
theorem claim_C7_update_nsample (post pre : String) :
    update_nsample post pre =
      pyStr (((pyNatOfChars post.data).getD 0 : Nat) + ((pyNatOfChars pre.data).getD 0 : Nat)) ∧
    update_nsample "8" "120" = "128" ∧
    update_nsample "8" "abc" = "8" ∧
    update_nsample "" "" = "0" := by
  refine ⟨?_, by decide, by decide, by decide⟩
  simp only [update_nsample]
  by_cases hpost : pyIsdigit post = true
  · rw [if_pos hpost, pyInt_of_isdigit post hpost, pyNatOfChars_of_isdigit post hpost]
    by_cases hpre : pyIsdigit pre = true
    · rw [if_pos hpre, pyInt_of_isdigit pre hpre, pyNatOfChars_of_isdigit pre hpre]
      simp only [Option.getD_some]
      congr 1
      omega
    · rw [if_neg hpre,
        pyNatOfChars_of_not_isdigit pre (Bool.of_not_eq_true hpre)]
      simp only [Option.getD_some, Option.getD_none]
      congr 1
      omega
  · rw [if_neg hpost,
      pyNatOfChars_of_not_isdigit post (Bool.of_not_eq_true hpost)]
    by_cases hpre : pyIsdigit pre = true
    · rw [if_pos hpre, pyInt_of_isdigit pre hpre, pyNatOfChars_of_isdigit pre hpre]
      simp only [Option.getD_some, Option.getD_none]
      congr 1
    · rw [if_neg hpre, pyNatOfChars_of_not_isdigit pre (Bool.of_not_eq_true hpre)]
      simp only [Option.getD_none]
      norm_num

theorem texts_updStdStep (std_mask : Nat) (std_val : Nat → Nat) (w : StdAttrWidgets)
    (i j : Nat) :
    (updStdStep std_mask std_val w i).texts j =
      if j = i then (if std_mask.testBit i then pyStrNat (std_val i) else "")
      else w.texts j := by
  unfold updStdStep
  split <;> by_cases hj : j = i <;> simp [hj]

theorem texts_updStd_foldl (std_mask : Nat) (std_val : Nat → Nat) :
    ∀ (n : Nat) (w : StdAttrWidgets) (i : Nat),
      ((List.range n).foldl (updStdStep std_mask std_val) w).texts i =
        if i < n then (if std_mask.testBit i then pyStrNat (std_val i) else "")
        else w.texts i := by
  intro n
  induction n with
  | zero => intro w i; simp
  | succ n ih =>
    intro w i
    rw [List.range_succ, List.foldl_append, List.foldl_cons, List.foldl_nil,
      texts_updStdStep]
    by_cases hi : i = n
    · simp [hi]
    · rw [if_neg hi, ih]
      by_cases hlt : i < n
      · simp [hlt, Nat.lt_succ_of_lt hlt]
      · have h2 : ¬i < n + 1 := by omega
        simp [hlt, h2]

/-- C8 fails on the code: the bit-15 hex special case targets `attrs_gui[-1]`,
the last of the 6 (or 4) standard edit widgets, not a 16th slot.  With mask
`0b100000` (bit 5 set, bit 15 clear) and `std_val[5] = 7`, the claim says the
enabled slot 5 shows decimal "7", but the final text of widget 5 is `""`
because the bit-15-clear branch overwrites the last widget. -/
theorem claim_C8_counterexample :
    (update_standard_attributes egStdWidgets 32 (fun _ => 7)).texts 5 = "" ∧
    ("" : String) ≠ pyStrNat 7 := by
  constructor
  · decide
  · decide

/-- C8 amended: enabled slots `i < count - 1` display decimal `std_val[i]`
(disabled ones empty); the hex display of `std_val[15]` when bit 15 is set —
and the empty display when it is clear — lands on the last widget
(index `count - 1`), unconditionally overwriting that slot's decimal text. -/
theorem claim_C8_amended (w : StdAttrWidgets) (m : Nat) (v : Nat → Nat)
    (hc : 1 ≤ w.count) :
    (∀ i, i < w.count - 1 →
      (update_standard_attributes w m v).texts i =
        if m.testBit i then pyStrNat (v i) else "") ∧
    (update_standard_attributes w m v).texts (w.count - 1) =
      (if m.testBit 15 then pyHexNat (v 15) else "") := by
  constructor
  · intro i hi
    unfold update_standard_attributes
    split <;>
    · show (fun j => if j = w.count - 1 then _ else _) i = _
      simp only
      rw [if_neg (by omega), texts_updStd_foldl]
      rw [if_pos (by omega)]
  · unfold update_standard_attributes
    split <;>
    · show (fun j => if j = w.count - 1 then _ else _) (w.count - 1) = _
      simp_all

/-- Witness for the amended C8 on the six-widget device row with bits 0 and
15 set. -/
theorem claim_C8_amended_witness :
    (update_standard_attributes egStdWidgets 32769 (fun i => i)).texts 0 = pyStrNat 0 ∧
    (update_standard_attributes egStdWidgets 32769 (fun i => i)).texts 5 = pyHexNat 15 := by
  have h := claim_C8_amended egStdWidgets 32769 (fun i => i) (by decide)
  constructor
  · have h0 := h.1 0 (by decide)
    rw [h0, if_pos (by decide)]
  · have h5 := h.2
    rw [show egStdWidgets.count - 1 = 5 from rfl] at h5
    rw [h5, if_pos (by decide)]

/-- C9 fails on the code: names longer than 12 characters are not truncated.
The 13-character line "abcdefghijklm" produces a 13-character entry. -/
theorem claim_C9_counterexample :
    (fillComboEntry "abcdefghijklm").length = 13 ∧ (13 : Nat) ≠ 12 := by
  constructor
  · decide
  · decide

/-- C9 amended: each line has its trailing newlines removed and is padded
with NUL bytes up to 12 characters, so an entry of rstripped length ≤ 12 has
length exactly 12; a longer name is left unchanged (never truncated), so its
entry keeps the longer length. -/
theorem claim_C9_amended (line : String) :
    ((pyRstripNl line).length ≤ 12 → (fillComboEntry line).length = 12) ∧
    (12 < (pyRstripNl line).length → fillComboEntry line = pyRstripNl line) := by
  constructor
  · intro h
    show ((pyRstripNl line) ++ String.mk (List.replicate (12 - (pyRstripNl line).length) '\x00')).length = 12
    rw [String.length_append]
    have : (String.mk (List.replicate (12 - (pyRstripNl line).length) '\x00')).length =
        12 - (pyRstripNl line).length := by
      rw [String.length_mk, List.length_replicate]
    rw [this]
    omega
  · intro h
    show (pyRstripNl line) ++ String.mk (List.replicate (12 - (pyRstripNl line).length) '\x00') = _
    have h0 : 12 - (pyRstripNl line).length = 0 := by omega
    rw [h0]
    show pyRstripNl line ++ "" = pyRstripNl line
    exact String.append_empty _

/-- Witness for the amended C9: `"user\n"` rstripped has length 4, the entry
has length 12. -/
theorem claim_C9_amended_witness :
    (pyRstripNl "user\n").length ≤ 12 ∧ (fillComboEntry "user\n").length = 12 :=
  ⟨by decide, (claim_C9_amended "user\n").1 (by decide)⟩

theorem updStdValsAux_frame (std_mask : Nat) :
    ∀ (attrs : List String) (i : Nat) (std_val w : Nat → Int),
      updStdValsAux std_mask attrs i std_val = some w →
      ∀ j, j < i ∨ i + attrs.length ≤ j → w j = std_val j := by
  intro attrs
  induction attrs with
  | nil =>
    intro i std_val w h j hj
    simp only [updStdValsAux] at h
    obtain rfl : std_val = w := Option.some.inj h
    rfl
  | cons t rest ih =>
    intro i std_val w h j hj
    simp only [updStdValsAux] at h
    by_cases hb : std_mask.testBit i
    · rw [if_pos hb] at h
      rcases hp : pyInt t with _ | n
      · rw [hp] at h; exact absurd h (by simp)
      · rw [hp] at h
        have hj' : j < i + 1 ∨ (i + 1) + rest.length ≤ j := by
          rcases hj with hj | hj
          · exact Or.inl (by omega)
          · simp only [List.length_cons] at hj
            exact Or.inr (by omega)
        have := ih (i + 1) _ w h j hj'
        rw [this]
        have hne : j ≠ i := by
          rcases hj with hj | hj
          · omega
          · simp only [List.length_cons] at hj; omega
        rw [if_neg hne]
    · rw [if_neg hb] at h
      have hj' : j < i + 1 ∨ (i + 1) + rest.length ≤ j := by
        rcases hj with hj | hj
        · exact Or.inl (by omega)
        · simp only [List.length_cons] at hj
          exact Or.inr (by omega)
      exact ih (i + 1) _ w h j hj'

/-- C10: `update_ctrl` writes `std_val[i]` only for `i` below the number of
standard edit widgets (6 for the device/channel set, 4 for the trigger set):
whenever the write-back loop completes, every entry at an index at or above
the widget count — even one whose standard-mask bit is set — is unchanged,
although the standard set's nominal capacity is 16. -/
theorem claim_C10_frame (attrs : List String) (m : Nat) (v w : Nat → Int)
    (h : update_ctrl_std attrs m v = some w) :
    ∀ j, attrs.length ≤ j → w j = v j := by
  intro j hj
  exact updStdValsAux_frame m attrs 0 v w h j (Or.inr (by omega))

/-- Witness for C10: six widget texts, mask `0x8001` (bit 0 and bit 15 set);
slot 15 keeps its old value 9 even though its mask bit is set. -/
theorem claim_C10_frame_witness :
    ∃ w, update_ctrl_std ["1", "2", "3", "4", "5", "6"] 32769 (fun _ => 9) = some w ∧
      w 15 = 9 := by
  refine ⟨_, rfl, ?_⟩
  exact claim_C10_frame ["1", "2", "3", "4", "5", "6"] 32769 (fun _ => 9) _ rfl 15 (by decide)

theorem rd32_w32 (n : Nat) (rest : List Nat) :
    rd32 (w32 n ++ rest) = some (n % 4294967296, rest) := by
  simp only [w32, List.cons_append, List.nil_append, rd32]
  have h : n % 256 + 256 * (n / 256 % 256) + 65536 * (n / 65536 % 256) +
      16777216 * (n / 16777216 % 256) = n % 4294967296 := by omega
  rw [h]

theorem decVals_encVals (l : List Nat) :
    ∀ rest, decVals l.length (encVals l ++ rest) =
      some (l.map (fun x => x % 4294967296), rest) := by
  induction l with
  | nil => intro rest; simp [encVals, decVals]
  | cons a l ih =>
    intro rest
    have he : encVals (a :: l) = w32 a ++ encVals l := by
      simp [encVals]
    rw [List.length_cons, he, List.append_assoc]
    simp [decVals, rd32_w32, ih]

theorem map_mod32_eq_self (l : List Nat) (h : ∀ x ∈ l, u32 x) :
    l.map (fun x => x % 4294967296) = l := by
  rw [List.map_congr_left, List.map_id]
  intro x hx
  exact Nat.mod_eq_of_lt (h x hx)

theorem dropTrailingZeros_pad (b : List Nat) (k : Nat) (hb : ∀ x ∈ b, x ≠ 0) :
    dropTrailingZeros (b ++ List.replicate k 0) = b := by
  unfold dropTrailingZeros
  rw [List.reverse_append, List.reverse_replicate]
  have h1 : List.dropWhile (· == 0) (List.replicate k 0 ++ b.reverse) =
      List.dropWhile (· == 0) b.reverse := by
    induction k with
    | zero => simp
    | succ k ihk =>
      rw [List.replicate_succ, List.cons_append, List.dropWhile_cons]
      simp only [beq_self_eq_true, if_true]
      exact ihk
  rw [h1]
  have h2 : List.dropWhile (· == 0) b.reverse = b.reverse := by
    cases hr : b.reverse with
    | nil => simp
    | cons x xs =>
      have hx : x ∈ b := by
        have hm : x ∈ b.reverse := by rw [hr]; exact List.mem_cons_self _ _
        exact List.mem_reverse.mp hm
      rw [List.dropWhile_cons]
      simp [hb x hx]
  rw [h2, List.reverse_reverse]

theorem length_encStr (cap : Nat) (s : String) (h : s.data.length ≤ cap) :
    (encStr cap s).length = cap := by
  simp only [encStr, List.length_append, List.length_map, List.length_replicate]
  omega

theorem rdStr_encStr (cap : Nat) (s : String) (rest : List Nat)
    (hlen : s.data.length ≤ cap) (hchars : ∀ c ∈ s.data, c.toNat ≠ 0 ∧ c.toNat < 256) :
    rdStr cap (encStr cap s ++ rest) = some (s, rest) := by
  have hel := length_encStr cap s hlen
  unfold rdStr
  rw [if_pos (by rw [List.length_append, hel]; omega)]
  rw [List.take_left' hel, List.drop_left' hel]
  have hpad : dropTrailingZeros (encStr cap s) = s.data.map Char.toNat := by
    unfold encStr
    apply dropTrailingZeros_pad
    intro x hx
    obtain ⟨c, hc, rfl⟩ := List.mem_map.mp hx
    exact (hchars c hc).1
  rw [hpad, List.map_map]
  have hid : s.data.map (Char.ofNat ∘ Char.toNat) = s.data := by
    rw [List.map_congr_left, List.map_id]
    intro c _
    exact Char.ofNat_toNat c
  rw [hid]

theorem decAttrSet_encAttrSet (a : ZioAttributeSet) (rest : List Nat)
    (wf : WFAttrSet a) :
    decAttrSet (encAttrSet a ++ rest) = some (a, rest) := by
  obtain ⟨h1, h2, h3, h4, h5, h6⟩ := wf
  obtain ⟨sm, sv, em, ev⟩ := a
  simp only at h1 h2 h3 h4 h5 h6
  unfold encAttrSet decAttrSet
  simp only [List.append_assoc, Option.bind_eq_bind]
  rw [rd32_w32]
  simp only [Option.some_bind]
  rw [← h2, decVals_encVals]
  simp only [Option.some_bind]
  rw [rd32_w32]
  simp only [Option.some_bind]
  rw [← h5, decVals_encVals]
  simp only [Option.some_bind, Option.pure_def]
  rw [Nat.mod_eq_of_lt h1, Nat.mod_eq_of_lt h4, map_mod32_eq_self sv h3,
    map_mod32_eq_self ev h6]

theorem decHdrA_enc (a b c d e : Nat) (rest : List Nat) :
    decHdrA (w32 a ++ (w32 b ++ (w32 c ++ (w32 d ++ (w32 e ++ rest))))) =
      some ((a % 4294967296, b % 4294967296, c % 4294967296, d % 4294967296,
        e % 4294967296), rest) := by
  simp [decHdrA, rd32_w32]

theorem decHdrB_enc (a b c d : Nat) (rest : List Nat) :
    decHdrB (w32 a ++ (w32 b ++ (w32 c ++ (w32 d ++ rest)))) =
      some ((a % 4294967296, b % 4294967296, c % 4294967296, d % 4294967296),
        rest) := by
  simp [decHdrB, rd32_w32]

theorem decAddress_enc (a : ZioAddress) (rest : List Nat)
    (h1 : u32 a.host_type) (h2 : u32 a.hostid) (h3 : u32 a.dev_id)
    (h4 : u32 a.cset_i) (h5 : u32 a.chan_i) (h6 : WFStr 12 a.devname) :
    decAddress (w32 a.host_type ++ (w32 a.hostid ++ (w32 a.dev_id ++
      (w32 a.cset_i ++ (w32 a.chan_i ++ (encStr 12 a.devname ++ rest)))))) =
      some (a, rest) := by
  obtain ⟨ht, hid, did, cs, ch, dn⟩ := a
  simp only at h1 h2 h3 h4 h5 h6
  simp only [decAddress, rd32_w32, Option.bind_eq_bind, Option.some_bind]
  rw [rdStr_encStr 12 dn rest h6.1 h6.2]
  simp only [Option.some_bind, Option.pure_def]
  rw [Nat.mod_eq_of_lt h1, Nat.mod_eq_of_lt h2, Nat.mod_eq_of_lt h3,
    Nat.mod_eq_of_lt h4, Nat.mod_eq_of_lt h5]

theorem decTimeStamp_enc (t : ZioTimeStamp) (rest : List Nat)
    (h1 : u32 t.seconds) (h2 : u32 t.ticks) (h3 : u32 t.bins) :
    decTimeStamp (w32 t.seconds ++ (w32 t.ticks ++ (w32 t.bins ++ rest))) =
      some (t, rest) := by
  obtain ⟨sec, tic, bin⟩ := t
  simp only at h1 h2 h3
  simp only [decTimeStamp, rd32_w32, Option.bind_eq_bind, Option.some_bind,
    Option.pure_def]
  rw [Nat.mod_eq_of_lt h1, Nat.mod_eq_of_lt h2, Nat.mod_eq_of_lt h3]

/-- C1: for every valid (well-formed) control block, decoding the encoding
reproduces it field-for-field, masks and all standard and extended attribute
values included. -/
theorem claim_C1_roundtrip (c : ZioCtrl) (wf : WFCtrl c) :
    unpack_to_ctrl (pack_to_bin c) = some c := by
  obtain ⟨mj, mn, sq, ss, nb, ns, az, ad, fl, addr, ts, tn, ac, atr⟩ := c
  obtain ⟨w1, w2, w3, w4, w5, w6, w7, w8, w9, w10, w11, w12, w13, w14, wdn,
    w15, w16, w17, wtn, wac, watr⟩ := wf
  dsimp only at w1 w2 w3 w4 w5 w6 w7 w8 w9 w10 w11 w12 w13 w14 wdn w15 w16 w17 wtn wac watr
  unfold pack_to_bin unpack_to_ctrl
  simp only [Option.bind_eq_bind]
  rw [decHdrA_enc]
  simp only [Option.some_bind]
  rw [decHdrB_enc]
  simp only [Option.some_bind]
  rw [decAddress_enc addr _ w10 w11 w12 w13 w14 wdn]
  simp only [Option.some_bind]
  rw [decTimeStamp_enc ts _ w15 w16 w17]
  simp only [Option.some_bind]
  rw [rdStr_encStr 12 tn _ wtn.1 wtn.2]
  simp only [Option.some_bind]
  rw [decAttrSet_encAttrSet ac _ wac]
  simp only [Option.some_bind]
  rw [show encAttrSet atr = encAttrSet atr ++ [] from (List.append_nil _).symm]
  rw [decAttrSet_encAttrSet atr _ watr]
  simp only [Option.some_bind, Option.pure_def]
  rw [Nat.mod_eq_of_lt w1, Nat.mod_eq_of_lt w2, Nat.mod_eq_of_lt w3,
    Nat.mod_eq_of_lt w4, Nat.mod_eq_of_lt w5, Nat.mod_eq_of_lt w6,
    Nat.mod_eq_of_lt w7, Nat.mod_eq_of_lt w8, Nat.mod_eq_of_lt w9]

/-- Witness for C1 at a concrete well-formed control block. -/
theorem claim_C1_roundtrip_witness :
    WFCtrl egCtrl ∧ unpack_to_ctrl (pack_to_bin egCtrl) = some egCtrl :=
  ⟨by decide, claim_C1_roundtrip egCtrl (by decide)⟩

end Zio
